import Mathlib

/-!
Verification of the state-reference normalization and code-generation core of
the Mitosis cross-target UI component compiler.

The development shallowly embeds the relevant program units:

* `transformState` and `hasFirstChildKeyAttribute` from
  `packages/core/src/generators/angular/helpers/index.ts`;
* `stripThisRefs`, `getSetStateFnName`, `processStateValue`, `getUseStateCode`,
  `updateStateSetters` and `updateStateSettersInCode` from the React
  useState-flavor state materialization module.

Code fragments carried by the IR are embedded as Lean strings (lists of
characters); regular-expression rewrites of the source are implemented as
executable character-list scanners.  Helper modules of the repository that are
referenced but whose sources are not part of the analyzed tree
(`stripStateAndPropsRefs`, `capitalize`, `transformStateSetters`,
`processBinding`, `replaceGetterWithFunction`, `prefixWithFunction`,
`getTypedFunction`) are modelled from the specification; each such definition
carries a doc comment starting with "Modelled from the spec".
-/

/-! ### Generic executable string helpers -/

/-- Tests whether the character list `l` starts with the character list `p`. -/
def charsStartWith : List Char → List Char → Bool
  | _, [] => true
  | [], _ :: _ => false
  | c :: cs, p :: ps => c == p && charsStartWith cs ps

/-- Tests whether the character list `pat` occurs somewhere inside `l`. -/
def charsContains : List Char → List Char → Bool
  | [], pat => pat.isEmpty
  | c :: cs, pat => charsStartWith (c :: cs) pat || charsContains cs pat

/-- Embedding of JavaScript `String.prototype.includes`: substring test. -/
def containsSubstr (s pat : String) : Bool :=
  charsContains s.data pat.data

/-- Fuel-indexed scanner replacing every (leftmost, non-overlapping) occurrence
of `pattern` by `replacement`.  The fuel argument only makes the recursion
structural; callers pass the length of the scanned list, which always
suffices because every step consumes at least one character. -/
def replaceFuel (pattern replacement : List Char) : Nat → List Char → List Char
  | 0, l => l
  | _ + 1, [] => []
  | fuel + 1, c :: cs =>
    if !pattern.isEmpty && charsStartWith (c :: cs) pattern then
      replacement ++ replaceFuel pattern replacement fuel ((c :: cs).drop pattern.length)
    else
      c :: replaceFuel pattern replacement fuel cs

/-- Embedding of a JavaScript global string replace (`str.replace(/pat/g, rep)`
for a literal pattern): replaces every occurrence of `pattern` in `s` by
`replacement`, scanning left to right without rescanning replacements. -/
def replaceAll (s pattern replacement : String) : String :=
  String.mk (replaceFuel pattern.data replacement.data s.data.length s.data)

/-- Modelled from the spec: the `capitalize` string helper used for setter-name
derivation ("capitalize the field name"): upper-cases the first character. -/
def capitalize (s : String) : String :=
  match s.data with
  | [] => ""
  | c :: rest => String.mk (c.toUpper :: rest)

/-- Concatenation of a list of strings (used to state in which order relocated
statements appear inside the generated init hook). -/
def strConcat : List String → String
  | [] => ""
  | s :: rest => s ++ strConcat rest

/-! ### Component IR (angular-side view)

The `value` state-entry kind of the spec is called `property` in the IR field
`StateValue.type`; `getter`, `method` and `function` match up directly.
-/

/-- Kind tag of a state entry (the field `StateValue.type` in the IR). -/
inductive StateValueType where
  | property
  | getter
  | method
  | functionKind
deriving DecidableEq, BEq

/-- One state entry: its source code, kind, and optional type annotation. -/
structure StateValue where
  code : String
  type : StateValueType
  typeParameter : Option String
deriving DecidableEq

/-- The init hook entry (`json.hooks.onInit`): a statement sequence as text. -/
structure OnInitHook where
  code : String
deriving DecidableEq

/-- Hook table of a component.  Only the init hook is touched by the
Reference Normalization Pass, so only it is carried in the embedding. -/
structure Hooks where
  onInit : Option OnInitHook
deriving DecidableEq

/-- Component IR as consumed by `transformState`: the insertion-ordered state
table (a JavaScript object, embedded as an association list whose value slots
may be `undefined`) and the hook table.  Fields of `MitosisComponent` not read
or written by the verified functions are omitted, except `name`, kept to show
the pass leaves unrelated fields alone. -/
structure MitosisComponent where
  name : String
  state : List (String × Option StateValue)
  hooks : Hooks
deriving DecidableEq

/-- Modelled from the spec: `stripStateAndPropsRefs` with option
`replaceWith`, as called by the Reference Normalization Pass — rewrites every
self-referential (`state.`) and prop-referential (`props.`) token of the code
to the unified receiver form `replaceWith ++ "."`. -/
def stripStateAndPropsRefs (code : String) (replaceWith : String) : String :=
  replaceAll (replaceAll code "state." (replaceWith ++ ".")) "props." (replaceWith ++ ".")

/-- Statement text prepended to the init hook for a relocated entry:
`"\nthis.<key> = <code>;\n"` exactly as built in the source. -/
def mkInitStmt (key code : String) : String :=
  "\nthis." ++ key ++ " = " ++ code ++ ";\n"

/-- Code of an optional hook, read as JavaScript reads `onInit?.code` with an
absent hook giving the empty (falsy) string. -/
def optCode : Option OnInitHook → String
  | some h => h.code
  | none => ""

/-- In-place update `json.state[key]!.code = newCode` of the state table:
rewrites the code of every entry stored under `key`. -/
def setStateCode (st : List (String × Option StateValue)) (key newCode : String) :
    List (String × Option StateValue) :=
  st.map fun p =>
    if p.1 == key then (p.1, p.2.map fun v => StateValue.mk newCode v.type v.typeParameter) else p

/-- Body of the `forEach` of `transformState`, acting on one snapshot entry
`(key, value)`.  The source resets a missing-or-empty init hook to
`{ code: '' }` before prepending; prepending to `optCode` of the previous hook
is the same net effect, since `optCode` is `''` exactly in that case. -/
def transformStateStep (json : MitosisComponent) (kv : String × Option StateValue) :
    MitosisComponent :=
  match kv with
  | (key, some value) =>
    if value.type == StateValueType.property then
      if value.code != "" && (containsSubstr value.code "state." || containsSubstr value.code "props.") then
        MitosisComponent.mk json.name
          (setStateCode json.state key "null")
          (Hooks.mk (some (OnInitHook.mk
            (mkInitStmt key (stripStateAndPropsRefs value.code "this") ++ optCode json.hooks.onInit))))
      else json
    else json
  | (_, none) => json

/-- The Reference Normalization Pass (`transformState`): iterates the snapshot
of the state entries in reverse declaration order, relocating every `value`
(IR kind `property`) entry whose code mentions `state.` or `props.` into the
init hook. -/
def transformState (json : MitosisComponent) : MitosisComponent :=
  List.foldl transformStateStep json json.state.reverse

/-! ### Structural signal extraction (angular-side view of nodes) -/

/-- One dynamic binding of a node (only its code is relevant here). -/
structure Binding where
  code : String
deriving DecidableEq

/-- Node of the markup tree: tag name, binding table (a JavaScript object,
embedded as an association list) and ordered children. -/
inductive MitosisNode where
  | mk (name : String) (bindings : List (String × Binding)) (children : List MitosisNode)

/-- Binding table of a node. -/
def MitosisNode.bindings : MitosisNode → List (String × Binding)
  | .mk _ b _ => b

/-- Children list of a node. -/
def MitosisNode.children : MitosisNode → List MitosisNode
  | .mk _ _ c => c

/-- Lookup of a binding by key, as `bindings.key` reads a JavaScript object
property (absent keys give `undefined`). -/
def lookupBinding : List (String × Binding) → String → Option Binding
  | [], _ => none
  | (k, b) :: rest, key => if k == key then some b else lookupBinding rest key

/-- Structural signal extraction (`hasFirstChildKeyAttribute`): whether the
first child of a repetition node carries a non-empty `key` binding. -/
def hasFirstChildKeyAttribute (node : MitosisNode) : Bool :=
  match node.children with
  | [] => false
  | firstChild :: _ =>
    match lookupBinding firstChild.bindings "key" with
    | some b => b.code != ""
    | none => false

/-! ### React useState-flavor state materialization -/

/-- Materialization flavor (`options.stateType`).  `useState` is the
`independent-pairs` flavor of the spec; the others are the store-based flavors. -/
inductive StateType where
  | useState
  | mobx
  | valtio
  | solid
  | builder
  | variables
deriving DecidableEq

/-- The subset of `ToReactOptions` read by the verified functions. -/
structure ToReactOptions where
  stateType : StateType
  typescript : Bool
deriving DecidableEq

/-- Character class `[a-zA-Z_$0-9]` of the receiver-stripping regex. -/
def isIdentChar (c : Char) : Bool :=
  c.isAlpha || c.isDigit || c == '_' || c == '$'

/-- The characters of the literal regex part `this.`. -/
def thisDotChars : List Char := ['t', 'h', 'i', 's', '.']

/-- Head test of the receiver regex: when the fragment starts with the five
characters `this.`, returns the remainder after them. -/
def dropThisDot : List Char → Option (List Char)
  | c1 :: c2 :: c3 :: c4 :: c5 :: rest =>
      if [c1, c2, c3, c4, c5] = thisDotChars then some rest else none
  | _ => none

/-- Fuel-indexed scanner for the regex replace
`str.replace(/this\.([a-zA-Z_$0-9]+)/g, $1)`: each leftmost occurrence of
`this.` followed by a non-empty identifier-character run is replaced by that
run, and scanning resumes after it; at a position where `this.` is not
followed by an identifier character the scan moves on by one character, as
the regex engine does.  The fuel argument only makes the recursion
structural; the length of the scanned list always suffices. -/
def stripThisAux : Nat → List Char → List Char
  | 0, l => l
  | _ + 1, [] => []
  | fuel + 1, c :: cs =>
    match dropThisDot (c :: cs) with
    | some rest =>
      if (rest.takeWhile isIdentChar).isEmpty then c :: stripThisAux fuel cs
      else rest.takeWhile isIdentChar ++ stripThisAux fuel (rest.dropWhile isIdentChar)
    | none => c :: stripThisAux fuel cs

/-- The receiver-stripping scan at its natural fuel. -/
def stripThisCore (l : List Char) : List Char :=
  stripThisAux l.length l

/-- Removes all `this.` references (`stripThisRefs`): the identity for every
flavor other than `useState`, otherwise the global regex replace
`this\.([a-zA-Z_$0-9]+)` ↦ `$1`. -/
def stripThisRefs (str : String) (options : ToReactOptions) : String :=
  if options.stateType ≠ StateType.useState then str
  else String.mk (stripThisAux str.data.length str.data)

/-- Setter-name derivation (`getSetStateFnName`): fixed prefix `set` followed
by the capitalized field name. -/
def getSetStateFnName (stateName : String) : String :=
  "set" ++ capitalize stateName

/-! #### Expression-level view of code fragments

The setter rewrite of the source parses a code fragment with Babel, rewrites
matching `AssignmentExpression` nodes, and prints the fragment back.  The
embedding works directly on the expression tree. -/

mutual
/-- JavaScript expression fragments as far as the setter rewrite inspects
them: identifiers, literal text, binary operations, assignments whose target
is a plain identifier, and call expressions. -/
inductive JSExpr where
  | ident (name : String)
  | lit (text : String)
  | binop (op : String) (left right : JSExpr)
  | assign (target : String) (rhs : JSExpr)
  | call (callee : String) (args : JSExprList)
/-- Argument lists of call expressions. -/
inductive JSExprList where
  | nil
  | cons (head : JSExpr) (tail : JSExprList)
end

mutual
/-- Printer of the expression fragments back to source text. -/
def printJS : JSExpr → String
  | .ident n => n
  | .lit t => t
  | .binop op l r => printJS l ++ " " ++ op ++ " " ++ printJS r
  | .assign t r => t ++ " = " ++ printJS r
  | .call f args => f ++ "(" ++ printJSList args ++ ")"
/-- Printer of argument lists, comma separated. -/
def printJSList : JSExprList → String
  | .nil => ""
  | .cons e .nil => printJS e
  | .cons e (.cons e' rest) => printJS e ++ ", " ++ printJSList (.cons e' rest)
end

mutual
/-- Modelled from the spec: the `transformStateSetters` traversal — finds
every assignment expression whose left-hand side is a direct reference to a
known state field (`stateKeys` supplies the known-fields knowledge that the
source keeps in its Babel matcher) and replaces the whole assignment node by
`transformer` applied to the field name and the right-hand side.  Not
scope-aware: a shadowing local of the same name is rewritten too, the
documented hazard. -/
def transformStateSetters (stateKeys : List String)
    (transformer : String → JSExpr → JSExpr) : JSExpr → JSExpr
  | .ident n => .ident n
  | .lit t => .lit t
  | .binop op l r =>
      .binop op (transformStateSetters stateKeys transformer l)
        (transformStateSetters stateKeys transformer r)
  | .assign target rhs =>
      if stateKeys.contains target then
        transformer target (transformStateSetters stateKeys transformer rhs)
      else .assign target (transformStateSetters stateKeys transformer rhs)
  | .call callee args => .call callee (transformStateSettersList stateKeys transformer args)
/-- Traversal of `transformStateSetters` through argument lists. -/
def transformStateSettersList (stateKeys : List String)
    (transformer : String → JSExpr → JSExpr) : JSExprList → JSExprList
  | .nil => .nil
  | .cons e rest =>
      .cons (transformStateSetters stateKeys transformer e)
        (transformStateSettersList stateKeys transformer rest)
end

mutual
/-- Tests that an expression contains no assignment node at all (such
fragments are untouched by the setter rewrite). -/
def assignFree : JSExpr → Bool
  | .ident _ => true
  | .lit _ => true
  | .binop _ l r => assignFree l && assignFree r
  | .assign _ _ => false
  | .call _ args => assignFreeList args
/-- List version of `assignFree`. -/
def assignFreeList : JSExprList → Bool
  | .nil => true
  | .cons e rest => assignFree e && assignFreeList rest
end

/-- The setter rewrite on one code fragment (`updateStateSettersInCode`):
for any flavor other than `useState` the fragment is returned unchanged;
for `useState` every assignment to a state field becomes a call of the
setter of the field with the (already traversed) right-hand side as sole argument,
exactly the source transformer
`types.callExpression(types.identifier(getSetStateFnName(propertyName)), [path.node.right])`. -/
def updateStateSettersInCode (value : JSExpr) (stateKeys : List String)
    (options : ToReactOptions) : JSExpr :=
  if options.stateType ≠ StateType.useState then value
  else
    transformStateSetters stateKeys
      (fun propertyName right =>
        JSExpr.call (getSetStateFnName propertyName) (JSExprList.cons right JSExprList.nil))
      value

mutual
/-- Node of the markup tree on the React side, carrying expression-level
binding codes (see `JSExpr`). -/
inductive RNode where
  | mk (name : String) (bindings : List (String × JSExpr)) (children : RNodeList)
/-- Children lists of React-side nodes. -/
inductive RNodeList where
  | nil
  | cons (head : RNode) (tail : RNodeList)
end

/-- React-side component IR: state table and markup tree (every node of which
`traverse(json)` visits in the source). -/
structure ReactComponent where
  name : String
  state : List (String × Option StateValue)
  nodes : RNodeList

/-- Keys of the state entries of the component. -/
def reactStateKeys (json : ReactComponent) : List String :=
  json.state.map Prod.fst

mutual
/-- Rewrites the bindings of one node through `updateStateSettersInCode`
(the body of the `traverse` callback of `updateStateSetters`). -/
def updateNodeSetters (stateKeys : List String) (options : ToReactOptions) : RNode → RNode
  | .mk name bindings children =>
      .mk name (bindings.map fun kv => (kv.1, updateStateSettersInCode kv.2 stateKeys options))
        (updateNodeListSetters stateKeys options children)
/-- List version of `updateNodeSetters`. -/
def updateNodeListSetters (stateKeys : List String) (options : ToReactOptions) :
    RNodeList → RNodeList
  | .nil => .nil
  | .cons n rest =>
      .cons (updateNodeSetters stateKeys options n) (updateNodeListSetters stateKeys options rest)
end

/-- The component-level setter rewrite (`updateStateSetters`): returns
immediately, mutating nothing, unless the flavor is `useState`; otherwise
rewrites every node binding in place. -/
def updateStateSetters (json : ReactComponent) (options : ToReactOptions) : ReactComponent :=
  if options.stateType ≠ StateType.useState then json
  else
    ReactComponent.mk json.name json.state
      (updateNodeListSetters (reactStateKeys json) options json.nodes)

/-! #### String-level state-value pipeline -/

/-- Modelled from the spec: emitter-surface binding processing
(`processBinding`) is outside the verified core (§4.5 of the spec treats it as
a collaborator); on the state-initializer fragments considered here it is the
identity. -/
def processBinding (value : String) (_options : ToReactOptions) : String :=
  value

/-- Modelled from the spec: the string-level view of the setter rewrite inside
the hook/state pipeline.  The engine only rewrites assignment expressions; a
state initializer is an expression, not an assignment, so on these fragments
the rewrite returns its input unchanged (and for flavors other than
`useState` it returns unchanged by the early flavor guard). -/
def updateStateSettersInCodeStr (value : String) (_options : ToReactOptions) : String :=
  value

/-- Hook/state code pipeline (`processHookCode`). -/
def processHookCode (str : String) (options : ToReactOptions) : String :=
  processBinding (updateStateSettersInCodeStr str options) options

/-- Value mapper of `processStateValue`: pipeline then receiver stripping. -/
def valueMapper (options : ToReactOptions) (val : String) : String :=
  stripThisRefs (processHookCode val options) options

/-- Modelled from the spec: `replaceGetterWithFunction` — a getter compiles to
an accessor function, its leading `get` keyword replaced by `function`. -/
def replaceGetterWithFunction (value : String) : String :=
  if containsSubstr (String.mk (value.data.take 4)) "get " then
    "function " ++ String.mk (value.data.drop 4)
  else value

/-- Modelled from the spec: `prefixWithFunction` — a method body (a bare
argument-list/body pair) is made to begin with a function-declaration
keyword. -/
def prefixWithFunction (value : String) : String :=
  "function " ++ value

/-- Modelled from the spec: `getTypedFunction` attaches target-language type
annotations to an emitted function; type-annotation surface syntax is outside
the verified core, so the function text itself is returned. -/
def getTypedFunction (code : String) (_typescript : Bool) (_typeParameter : Option String) :
    String :=
  code

/-- Materialization of one state entry under the useState flavor
(`processStateValue`): getters, functions and methods become functions; a
`value` (IR kind `property`) entry becomes its own
`const [key, setKey] = useState(() => (code))` pair with the initializer
wrapped in a zero-argument function. -/
def processStateValue (options : ToReactOptions) (kv : String × Option StateValue) : String :=
  match kv with
  | (_, none) => ""
  | (key, some stateVal) =>
    let value := stateVal.code
    let typeParameter := stateVal.typeParameter
    let stateType :=
      if options.typescript && typeParameter.isSome then "<" ++ typeParameter.getD "" ++ ">"
      else ""
    match stateVal.type with
    | StateValueType.getter =>
        getTypedFunction (valueMapper options (replaceGetterWithFunction value))
          options.typescript typeParameter
    | StateValueType.functionKind =>
        getTypedFunction (valueMapper options value) options.typescript typeParameter
    | StateValueType.method =>
        getTypedFunction (valueMapper options (prefixWithFunction value))
          options.typescript typeParameter
    | StateValueType.property =>
        "const [" ++ key ++ ", " ++ getSetStateFnName key ++ "] = useState" ++ stateType
          ++ "(() => (" ++ valueMapper options value ++ "))"

/-- Materialized state declarations of a whole component (`getUseStateCode`). -/
def getUseStateCode (json : ReactComponent) (options : ToReactOptions) : String :=
  String.intercalate "\n\n\n" (json.state.map (processStateValue options))

/-! ### Derived notions used to state and prove the claims -/

/-- Relocation condition of the Reference Normalization Pass on one state
table slot: a present `property`-kind entry with non-empty code mentioning
`state.` or `props.`. -/
def condSV : Option StateValue → Bool
  | some value =>
      value.type == StateValueType.property
        && (value.code != ""
            && (containsSubstr value.code "state." || containsSubstr value.code "props."))
  | none => false

/-- Replacement of the initializer of an entry by the neutral placeholder. -/
def nullifyEntry (p : String × Option StateValue) : String × Option StateValue :=
  (p.1, p.2.map fun v => StateValue.mk "null" v.type v.typeParameter)

/-- Whether the snapshot list `l` contains a relocated entry stored under the
same key as `p`. -/
def relocated (l : List (String × Option StateValue)) (p : String × Option StateValue) : Bool :=
  l.any fun q => q.1 == p.1 && condSV q.2

/-- State-table effect of folding `transformStateStep` over a snapshot. -/
def applyAllNull (l st : List (String × Option StateValue)) :
    List (String × Option StateValue) :=
  List.foldl (fun acc q => if condSV q.2 then setStateCode acc q.1 "null" else acc) st l

/-- Init-hook statement generated for one relocated snapshot entry. -/
def entryStmt (p : String × Option StateValue) : String :=
  match p.2 with
  | some v => mkInitStmt p.1 (stripStateAndPropsRefs v.code "this")
  | none => ""

/-- Init-hook effect of one `transformStateStep`. -/
def hookStepF (h : Option OnInitHook) (q : String × Option StateValue) : Option OnInitHook :=
  if condSV q.2 then some (OnInitHook.mk (entryStmt q ++ optCode h)) else h

/-- Accumulated init-hook text of a snapshot prefix, each relocated statement
prepended to the accumulator in iteration order. -/
def stmtsFold (l : List (String × Option StateValue)) (b : String) : String :=
  List.foldl (fun acc q => if condSV q.2 then entryStmt q ++ acc else acc) b l

/-! ### Concrete components and fragments used as witness inputs -/

/-- Options selecting the `useState` (independent-pairs) flavor. -/
def optsUseState : ToReactOptions := ToReactOptions.mk StateType.useState false

/-- Options selecting the `mobx` store flavor. -/
def optsMobx : ToReactOptions := ToReactOptions.mk StateType.mobx false

/-- One-entry component whose sole `value` entry references `state.b`, with a
pre-existing non-empty init hook. -/
def exampleC1 : MitosisComponent :=
  MitosisComponent.mk "Cmp"
    [("a", some (StateValue.mk "state.b" StateValueType.property none))]
    (Hooks.mk (some (OnInitHook.mk "foo();")))

/-- Two-entry component: `a` has no references, `b` references `a`. -/
def exampleC2 : MitosisComponent :=
  MitosisComponent.mk "Cmp"
    [("a", some (StateValue.mk "1" StateValueType.property none)),
     ("b", some (StateValue.mk "state.a + 1" StateValueType.property none))]
    (Hooks.mk none)

/-- Component whose entries are a getter (with references) and a method: no
entry is relocatable. -/
def exampleC7 : MitosisComponent :=
  MitosisComponent.mk "Cmp"
    [("g", some (StateValue.mk "return state.x" StateValueType.getter none)),
     ("m", some (StateValue.mk "doThing() \x7b \x7d" StateValueType.method none))]
    (Hooks.mk (some (OnInitHook.mk "init();")))

/-- One-entry component referencing `props.y`, with an existing init hook. -/
def exampleC10 : MitosisComponent :=
  MitosisComponent.mk "Cmp"
    [("x", some (StateValue.mk "props.y" StateValueType.property none))]
    (Hooks.mk (some (OnInitHook.mk "prev();")))

/-- The assignment fragment `count = count + 1`. -/
def exampleAssign : JSExpr :=
  JSExpr.assign "count" (JSExpr.binop "+" (JSExpr.ident "count") (JSExpr.lit "1"))

/-- React component with one `value` entry `count` and one node binding the
fragment `count = count + 1`. -/
def exampleReact : ReactComponent :=
  ReactComponent.mk "Cmp"
    [("count", some (StateValue.mk "0" StateValueType.property none))]
    (RNodeList.cons (RNode.mk "div" [("onClick", exampleAssign)] RNodeList.nil) RNodeList.nil)

/-! ### Properties of one `transformStateStep` -/

theorem transformStateStep_state (json : MitosisComponent) (kv : String × Option StateValue) :
    (transformStateStep json kv).state =
      if condSV kv.2 then setStateCode json.state kv.1 "null" else json.state := by
  obtain ⟨key, ov⟩ := kv
  cases ov with
  | none => simp [transformStateStep, condSV]
  | some v =>
    cases h1 : (v.type == StateValueType.property) with
    | false => simp [transformStateStep, condSV, h1]
    | true =>
      cases h2 : (v.code != ""
          && (containsSubstr v.code "state." || containsSubstr v.code "props.")) with
      | false => simp [transformStateStep, condSV, h1, h2]
      | true => simp [transformStateStep, condSV, h1, h2]

theorem transformStateStep_onInit (json : MitosisComponent) (kv : String × Option StateValue) :
    (transformStateStep json kv).hooks.onInit = hookStepF json.hooks.onInit kv := by
  obtain ⟨key, ov⟩ := kv
  cases ov with
  | none => simp [transformStateStep, hookStepF, condSV]
  | some v =>
    cases h1 : (v.type == StateValueType.property) with
    | false => simp [transformStateStep, hookStepF, condSV, h1]
    | true =>
      cases h2 : (v.code != ""
          && (containsSubstr v.code "state." || containsSubstr v.code "props.")) with
      | false => simp [transformStateStep, hookStepF, condSV, h1, h2]
      | true => simp [transformStateStep, hookStepF, condSV, h1, h2, entryStmt]

theorem transformStateStep_id (json : MitosisComponent) (kv : String × Option StateValue)
    (h : condSV kv.2 = false) : transformStateStep json kv = json := by
  obtain ⟨key, ov⟩ := kv
  cases ov with
  | none => rfl
  | some v =>
    simp only [condSV] at h
    cases h1 : (v.type == StateValueType.property) with
    | false => simp [transformStateStep, h1]
    | true =>
      rw [h1, Bool.true_and] at h
      simp [transformStateStep, h1, h]

/-! ### Folding the pass over the snapshot -/

theorem foldl_step_state (l : List (String × Option StateValue)) :
    ∀ json : MitosisComponent,
      (List.foldl transformStateStep json l).state = applyAllNull l json.state := by
  induction l with
  | nil => intro json; rfl
  | cons q l ih =>
    intro json
    rw [List.foldl_cons, ih, transformStateStep_state]
    rfl

theorem foldl_step_onInit (l : List (String × Option StateValue)) :
    ∀ json : MitosisComponent,
      (List.foldl transformStateStep json l).hooks.onInit =
        List.foldl hookStepF json.hooks.onInit l := by
  induction l with
  | nil => intro json; rfl
  | cons q l ih =>
    intro json
    rw [List.foldl_cons, ih, transformStateStep_onInit]
    rfl

theorem foldl_step_id (l : List (String × Option StateValue)) :
    ∀ json : MitosisComponent, (∀ p ∈ l, condSV p.2 = false) →
      List.foldl transformStateStep json l = json := by
  induction l with
  | nil => intro json _; rfl
  | cons q l ih =>
    intro json h
    rw [List.foldl_cons, transformStateStep_id json q (h q (List.mem_cons_self q l))]
    exact ih json fun p hp => h p (List.mem_cons_of_mem q hp)

/-! ### Closed form of the state-table effect -/

theorem nullifyEntry_fst (p : String × Option StateValue) : (nullifyEntry p).1 = p.1 := rfl

theorem nullifyEntry_idem (p : String × Option StateValue) :
    nullifyEntry (nullifyEntry p) = nullifyEntry p := by
  obtain ⟨k, ov⟩ := p
  cases ov <;> rfl

theorem condSV_nullifyEntry (p : String × Option StateValue) :
    condSV (nullifyEntry p).2 = false := by
  obtain ⟨k, ov⟩ := p
  cases ov with
  | none => rfl
  | some v =>
    have h1 : containsSubstr "null" "state." = false := by decide
    have h2 : containsSubstr "null" "props." = false := by decide
    simp [condSV, nullifyEntry, h1, h2]

theorem setStateCode_null_eq_map (st : List (String × Option StateValue)) (key : String) :
    setStateCode st key "null" = st.map fun p => if p.1 == key then nullifyEntry p else p := rfl

theorem relocated_cons (q : String × Option StateValue) (l : List (String × Option StateValue))
    (p : String × Option StateValue) :
    relocated (q :: l) p = ((q.1 == p.1 && condSV q.2) || relocated l p) := by
  simp [relocated]

theorem applyAllNull_eq_map (l : List (String × Option StateValue)) :
    ∀ st, applyAllNull l st = st.map fun p => if relocated l p then nullifyEntry p else p := by
  induction l with
  | nil =>
    intro st
    simp [applyAllNull, relocated]
  | cons q l ih =>
    intro st
    cases hq : condSV q.2 with
    | false =>
      have hstep : applyAllNull (q :: l) st = applyAllNull l st := by
        simp [applyAllNull, hq]
      rw [hstep, ih]
      apply List.map_congr_left
      intro p _
      rw [relocated_cons, hq, Bool.and_false, Bool.false_or]
    | true =>
      have hstep : applyAllNull (q :: l) st = applyAllNull l (setStateCode st q.1 "null") := by
        simp [applyAllNull, hq]
      rw [hstep, ih, setStateCode_null_eq_map, List.map_map]
      apply List.map_congr_left
      intro p _
      simp only [Function.comp]
      rw [relocated_cons, hq, Bool.and_true]
      by_cases hpq : p.1 = q.1
      · have h1 : (p.1 == q.1) = true := beq_iff_eq.mpr hpq
        have h2 : (q.1 == p.1) = true := beq_iff_eq.mpr hpq.symm
        simp [h1, h2, nullifyEntry_idem]
      · have h1 : (p.1 == q.1) = false := beq_eq_false_iff_ne.mpr hpq
        have h2 : (q.1 == p.1) = false := beq_eq_false_iff_ne.mpr (Ne.symm hpq)
        simp [h1, h2]

/-! ### Closed form of the init-hook effect -/

theorem stmtsFold_id (l : List (String × Option StateValue)) :
    ∀ b, (∀ p ∈ l, condSV p.2 = false) → stmtsFold l b = b := by
  induction l with
  | nil => intro b _; rfl
  | cons q l ih =>
    intro b h
    have hq : condSV q.2 = false := h q (List.mem_cons_self q l)
    have hstep : stmtsFold (q :: l) b = stmtsFold l b := by
      simp [stmtsFold, hq]
    rw [hstep]
    exact ih b fun p hp => h p (List.mem_cons_of_mem q hp)

theorem stmtsFold_cons (q : String × Option StateValue) (l : List (String × Option StateValue))
    (b : String) :
    stmtsFold (q :: l) b = stmtsFold l (if condSV q.2 then entryStmt q ++ b else b) := by
  simp [stmtsFold]

theorem hookFold_char (l : List (String × Option StateValue)) :
    ∀ h : Option OnInitHook,
      List.foldl hookStepF h l =
        if l.any (fun q => condSV q.2) then some (OnInitHook.mk (stmtsFold l (optCode h)))
        else h := by
  induction l with
  | nil => intro h; simp [stmtsFold]
  | cons q l ih =>
    intro h
    rw [List.foldl_cons, ih, stmtsFold_cons, List.any_cons]
    cases hq : condSV q.2 with
    | false =>
      have hstep : hookStepF h q = h := by simp [hookStepF, hq]
      rw [hstep, Bool.false_or, if_neg (show ¬ (false = true) by simp)]
    | true =>
      have hstep : hookStepF h q = some (OnInitHook.mk (entryStmt q ++ optCode h)) := by
        simp [hookStepF, hq]
      rw [hstep]
      cases hl : l.any (fun q => condSV q.2) with
      | true => simp [optCode]
      | false =>
        have hnone : ∀ p ∈ l, condSV p.2 = false := by
          intro p hp
          have := List.any_eq_false.mp hl p hp
          simpa using this
        simp [optCode, stmtsFold_id l _ hnone]

theorem stmtsFold_reverse (st : List (String × Option StateValue)) :
    ∀ b, stmtsFold st.reverse b =
      strConcat ((st.filter fun p => condSV p.2).map entryStmt) ++ b := by
  induction st with
  | nil =>
    intro b
    simp [stmtsFold, strConcat, String.empty_append]
  | cons p st ih =>
    intro b
    rw [List.reverse_cons]
    have happ : stmtsFold (st.reverse ++ [p]) b
        = if condSV p.2 then entryStmt p ++ stmtsFold st.reverse b else stmtsFold st.reverse b := by
      simp [stmtsFold, List.foldl_append]
    rw [happ, ih b]
    by_cases hp : condSV p.2 = true
    · have hfil : List.filter (fun q => condSV q.2) (p :: st)
          = p :: List.filter (fun q => condSV q.2) st := by
        simp [List.filter_cons, hp]
      rw [if_pos hp, hfil, List.map_cons, strConcat, String.append_assoc]
    · have hp' : condSV p.2 = false := by simpa using hp
      have hfil : List.filter (fun q => condSV q.2) (p :: st)
          = List.filter (fun q => condSV q.2) st := by
        simp [List.filter_cons, hp']
      rw [if_neg hp, hfil]

/-! ### Master characterization of the Reference Normalization Pass -/

theorem transformState_state (json : MitosisComponent) :
    (transformState json).state =
      json.state.map fun p => if relocated json.state.reverse p then nullifyEntry p else p := by
  rw [transformState, foldl_step_state, applyAllNull_eq_map]

theorem transformState_onInit (json : MitosisComponent) :
    (transformState json).hooks.onInit =
      if json.state.any (fun q => condSV q.2) then
        some (OnInitHook.mk
          (strConcat ((json.state.filter fun p => condSV p.2).map entryStmt)
            ++ optCode json.hooks.onInit))
      else json.hooks.onInit := by
  rw [transformState, foldl_step_onInit, hookFold_char, stmtsFold_reverse, List.any_reverse]

/-! ### No entry is relocatable after the pass -/

theorem transformState_condSV_false (json : MitosisComponent) :
    ∀ p ∈ (transformState json).state, condSV p.2 = false := by
  intro p hp
  rw [transformState_state] at hp
  rcases List.mem_map.mp hp with ⟨p0, hp0, rfl⟩
  by_cases hrel : relocated json.state.reverse p0 = true
  · rw [if_pos hrel]
    exact condSV_nullifyEntry p0
  · have hrel' : relocated json.state.reverse p0 = false := by simpa using hrel
    rw [if_neg hrel]
    have hmem : p0 ∈ json.state.reverse := List.mem_reverse.mpr hp0
    have hq := List.any_eq_false.mp hrel' p0 hmem
    simpa using hq

theorem strConcat_append (a b : List String) :
    strConcat (a ++ b) = strConcat a ++ strConcat b := by
  induction a with
  | nil => simp [strConcat, String.empty_append]
  | cons s a ih => rw [List.cons_append, strConcat, strConcat, ih, String.append_assoc]

theorem nodup_keys_inj {β : Type} {st : List (String × β)}
    (hnd : (st.map Prod.fst).Nodup) :
    ∀ p ∈ st, ∀ q ∈ st, p.1 = q.1 → p = q := by
  induction st with
  | nil => intro p hp; cases hp
  | cons a st ih =>
    intro p hp q hq hkey
    rw [List.map_cons, List.nodup_cons] at hnd
    rcases List.mem_cons.mp hp with rfl | hp'
    · rcases List.mem_cons.mp hq with rfl | hq'
      · rfl
      · exact absurd (by rw [hkey]; exact List.mem_map_of_mem Prod.fst hq') hnd.1
    · rcases List.mem_cons.mp hq with rfl | hq'
      · exact absurd (by rw [← hkey]; exact List.mem_map_of_mem Prod.fst hp') hnd.1
      · exact ih hnd.2 p hp' q hq' hkey

theorem filter_eq_cons_of_find? {α : Type} (l : List α) (f : α → Bool) (a : α) :
    l.find? f = some a → ∃ rest, l.filter f = a :: rest := by
  induction l with
  | nil => intro h; simp at h
  | cons x l ih =>
    intro h
    by_cases hx : f x = true
    · have hxa : x = a := by
        simp [List.find?, hx] at h
        exact h
      subst hxa
      exact ⟨l.filter f, by simp [List.filter_cons, hx]⟩
    · have hx' : f x = false := by simpa using hx
      have h' : l.find? f = some a := by
        simpa [List.find?, hx'] using h
      rcases ih h' with ⟨rest, hrest⟩
      exact ⟨rest, by simp [List.filter_cons, hx', hrest]⟩

/-! ### Claim theorems: Reference Normalization Pass -/

/-- C1: for every component IR and every `value`-kind state entry whose code
is non-empty and textually references a state entry (`state.`) or a prop
(`props.`), the pass rewrites those references to the own-instance receiver
`this` (via `stripStateAndPropsRefs`), replaces the declared
initializer of the entry with the neutral placeholder `null`, and the statement
`"\nthis.<key> = <rewritten code>;\n"` is prepended — together with the other
relocated statements — ahead of the previous code of the init hook, which survives
as the suffix. -/
theorem claim1_relocation (json : MitosisComponent) (k : String) (v : StateValue)
    (hmem : (k, some v) ∈ json.state) (hcond : condSV (some v) = true) :
    (k, some (StateValue.mk "null" v.type v.typeParameter)) ∈ (transformState json).state ∧
    ∃ pre mid, (transformState json).hooks.onInit =
      some (OnInitHook.mk
        (pre ++ (mkInitStmt k (stripStateAndPropsRefs v.code "this")
          ++ (mid ++ optCode json.hooks.onInit)))) := by
  have hrel : relocated json.state.reverse (k, some v) = true := by
    apply List.any_eq_true.mpr
    exact ⟨(k, some v), List.mem_reverse.mpr hmem, by simp [hcond]⟩
  constructor
  · rw [transformState_state]
    refine List.mem_map.mpr ⟨(k, some v), hmem, ?_⟩
    rw [if_pos hrel]
    rfl
  · have hany : json.state.any (fun q => condSV q.2) = true := by
      apply List.any_eq_true.mpr
      exact ⟨(k, some v), hmem, hcond⟩
    rw [transformState_onInit, if_pos hany]
    have hmemf : (k, some v) ∈ json.state.filter fun p => condSV p.2 :=
      List.mem_filter.mpr ⟨hmem, hcond⟩
    rcases List.append_of_mem hmemf with ⟨s, t, hst⟩
    refine ⟨strConcat (s.map entryStmt), strConcat (t.map entryStmt), ?_⟩
    rw [hst, List.map_append, List.map_cons, strConcat_append, strConcat]
    have hes : entryStmt (k, some v) = mkInitStmt k (stripStateAndPropsRefs v.code "this") := rfl
    rw [hes, String.append_assoc, String.append_assoc]

/-- C1 witness: the relocation theorem evaluated on the one-entry component
`exampleC1` whose entry `a` has code `state.b` and whose init hook already
holds `foo();`. -/
theorem claim1_relocation_witness :
    ("a", some (StateValue.mk "null" StateValueType.property none))
        ∈ (transformState exampleC1).state ∧
    ∃ pre mid, (transformState exampleC1).hooks.onInit =
      some (OnInitHook.mk
        (pre ++ (mkInitStmt "a" (stripStateAndPropsRefs "state.b" "this")
          ++ (mid ++ optCode exampleC1.hooks.onInit)))) :=
  claim1_relocation exampleC1 "a" (StateValue.mk "state.b" StateValueType.property none)
    (by decide) (by decide)

/-- C3: the Reference Normalization Pass is idempotent: running
`transformState` twice yields the same IR (state entries and hooks) as
running it once on any component. -/
theorem claim3_idempotent (json : MitosisComponent) :
    transformState (transformState json) = transformState json := by
  have hall : ∀ p ∈ (transformState json).state.reverse, condSV p.2 = false := by
    intro p hp
    exact transformState_condSV_false json p (List.mem_reverse.mp hp)
  show List.foldl transformStateStep (transformState json)
      (transformState json).state.reverse = transformState json
  exact foldl_step_id _ _ hall

/-- C7: the pass leaves every non-relocatable state entry unchanged — entries
that are not `value`-kind (getter, method, function), and `value` entries with
empty or reference-free code — and on a component consisting only of such
entries it changes nothing at all, hooks included. -/
theorem claim7_frame :
    (∀ json : MitosisComponent,
        (∀ p ∈ json.state, condSV p.2 = false) → transformState json = json) ∧
    (∀ (json : MitosisComponent) (p : String × Option StateValue),
        (json.state.map Prod.fst).Nodup → p ∈ json.state → condSV p.2 = false →
        p ∈ (transformState json).state) := by
  constructor
  · intro json h
    show List.foldl transformStateStep json json.state.reverse = json
    exact foldl_step_id _ _ fun p hp => h p (List.mem_reverse.mp hp)
  · intro json p hnd hp hcond
    rw [transformState_state]
    have hrel : relocated json.state.reverse p = false := by
      apply List.any_eq_false.mpr
      intro q hq
      intro hcontra
      have hq' : q ∈ json.state := List.mem_reverse.mp hq
      rcases Bool.and_eq_true_iff.mp hcontra with ⟨hkey, hcq⟩
      have : q = p := nodup_keys_inj hnd q hq' p hp (beq_iff_eq.mp hkey)
      rw [this] at hcq
      rw [hcond] at hcq
      exact Bool.false_ne_true hcq
    refine List.mem_map.mpr ⟨p, hp, ?_⟩
    rw [if_neg (by simp [hrel])]

/-- C7 witness: the frame theorem evaluated on `exampleC7` (a getter with a
reference and a method: nothing relocatable, so the whole component — hooks
included — is unchanged) and on its getter entry. -/
theorem claim7_frame_witness :
    transformState exampleC7 = exampleC7 ∧
    ("g", some (StateValue.mk "return state.x" StateValueType.getter none))
        ∈ (transformState exampleC7).state :=
  ⟨claim7_frame.1 exampleC7 (by decide),
   claim7_frame.2 exampleC7
     ("g", some (StateValue.mk "return state.x" StateValueType.getter none))
     (by decide) (by decide) (by decide)⟩

/-- C10: whenever the pass relocates at least one entry, the init hook exists
afterwards; its code begins with the relocated assignment of the first
relocated entry (in declaration order) — in particular this is the whole
leading statement when the hook had been absent or empty — and whatever code
the hook held before survives verbatim as the suffix. -/
theorem claim10_init_hook (json : MitosisComponent)
    (hmatch : json.state.any (fun q => condSV q.2) = true) :
    ∃ hk, (transformState json).hooks.onInit = some hk ∧
      (∀ p, json.state.find? (fun q => condSV q.2) = some p →
          ∃ suf, hk.code = entryStmt p ++ suf) ∧
      (∃ pre, hk.code = pre ++ optCode json.hooks.onInit) := by
  refine ⟨OnInitHook.mk
      (strConcat ((json.state.filter fun p => condSV p.2).map entryStmt)
        ++ optCode json.hooks.onInit), ?_, ?_, ?_⟩
  · rw [transformState_onInit, if_pos hmatch]
  · intro p hfind
    rcases filter_eq_cons_of_find? json.state (fun q => condSV q.2) p hfind with ⟨rest, hrest⟩
    refine ⟨strConcat (rest.map entryStmt) ++ optCode json.hooks.onInit, ?_⟩
    show strConcat ((json.state.filter fun p => condSV p.2).map entryStmt)
        ++ optCode json.hooks.onInit = _
    rw [hrest, List.map_cons, strConcat, String.append_assoc]
  · exact ⟨strConcat ((json.state.filter fun p => condSV p.2).map entryStmt), rfl⟩

/-- C10 witness: the init-hook theorem evaluated on `exampleC10`, whose sole
entry references `props.y` and whose init hook already holds `prev();`. -/
theorem claim10_init_hook_witness :
    ∃ hk, (transformState exampleC10).hooks.onInit = some hk ∧
      (∀ p, exampleC10.state.find? (fun q => condSV q.2) = some p →
          ∃ suf, hk.code = entryStmt p ++ suf) ∧
      (∃ pre, hk.code = pre ++ optCode exampleC10.hooks.onInit) :=
  claim10_init_hook exampleC10 (by decide)

/-- C2 counterexample: on `exampleC2` — entry `a` (code `1`, no state/props
references) declared before entry `b` (a `value` entry whose code
`state.a + 1` references `a`) — the pass produces an init hook holding only
the assignment of `b`.  The statement sequence of the hook contains no assignment to
`a` at all (no occurrence of `this.a =`), so it does not assign `a` before
`b`, refuting the claim as stated. -/
theorem claim2_counterexample :
    (transformState exampleC2).hooks.onInit
        = some (OnInitHook.mk "\nthis.b = this.a + 1;\n") ∧
    containsSubstr "\nthis.b = this.a + 1;\n" "this.a =" = false ∧
    containsSubstr "\nthis.b = this.a + 1;\n" "this.b =" = true := by
  refine ⟨by decide, by decide, by decide⟩

/-- C2 (amended): for state entries `a` (no state/props references, hence not
relocated) declared before `b` (a `value`-kind entry whose code references
`a`), the pass leaves the declarative initializer of `a` in place — so `a` is
still assigned at declaration time, before the init hook runs — and the init
hook receives exactly the relocated assignment of `b` (ahead of any pre-existing
hook code); in general, because entries are visited in reverse declaration
order and each relocated statement is prepended, the relocated init-hook
statements appear in original declaration order (the hook is the
concatenation, in declaration order, of the relocated statements, followed by
the previous hook code). -/
theorem claim2_amended :
    (∀ (json : MitosisComponent) (ka kb : String) (va vb : StateValue),
        ka ≠ kb →
        json.state = [(ka, some va), (kb, some vb)] →
        condSV (some va) = false → condSV (some vb) = true →
        (ka, some va) ∈ (transformState json).state ∧
        (transformState json).hooks.onInit =
          some (OnInitHook.mk (entryStmt (kb, some vb) ++ optCode json.hooks.onInit))) ∧
    (∀ json : MitosisComponent,
        (transformState json).hooks.onInit =
          if json.state.any (fun q => condSV q.2) then
            some (OnInitHook.mk
              (strConcat ((json.state.filter fun p => condSV p.2).map entryStmt)
                ++ optCode json.hooks.onInit))
          else json.hooks.onInit) := by
  constructor
  · intro json ka kb va vb hne hstate hva hvb
    have hrel : relocated [(kb, some vb), (ka, some va)] (ka, some va) = false := by
      simp [relocated, hva, beq_eq_false_iff_ne.mpr (Ne.symm hne)]
    constructor
    · rw [transformState_state, hstate]
      refine List.mem_map.mpr ⟨(ka, some va), List.mem_cons_self _ _, ?_⟩
      rw [if_neg (by simp [hrel])]
    · rw [transformState_onInit, hstate]
      have hany : List.any [(ka, some va), (kb, some vb)] (fun q => condSV q.2) = true := by
        simp [hvb]
      rw [if_pos hany]
      have hfil : List.filter (fun p => condSV p.2) [(ka, some va), (kb, some vb)]
          = [(kb, some vb)] := by
        simp [List.filter_cons, hva, hvb]
      rw [hfil, List.map_cons, List.map_nil, strConcat, strConcat, String.append_empty]
  · intro json
    exact transformState_onInit json

/-- C2 amended witness: the amended theorem evaluated on `exampleC2`. -/
theorem claim2_amended_witness :
    ("a", some (StateValue.mk "1" StateValueType.property none))
        ∈ (transformState exampleC2).state ∧
    (transformState exampleC2).hooks.onInit =
      some (OnInitHook.mk
        (entryStmt ("b", some (StateValue.mk "state.a + 1" StateValueType.property none))
          ++ optCode exampleC2.hooks.onInit)) :=
  claim2_amended.1 exampleC2 "a" "b"
    (StateValue.mk "1" StateValueType.property none)
    (StateValue.mk "state.a + 1" StateValueType.property none)
    (by decide) rfl (by decide) (by decide)

/-! ### Claim theorem: structural signal extraction -/

theorem hasFirstChildKeyAttribute_nil (name : String) (bs : List (String × Binding)) :
    hasFirstChildKeyAttribute (MitosisNode.mk name bs []) = false := rfl

theorem hasFirstChildKeyAttribute_cons (name : String) (bs : List (String × Binding))
    (c : MitosisNode) (rest : List MitosisNode) :
    hasFirstChildKeyAttribute (MitosisNode.mk name bs (c :: rest)) =
      match lookupBinding c.bindings "key" with
      | some b => b.code != ""
      | none => false := rfl

/-- C6: structural signal extraction reports key-present exactly when the
repetition node has at least one child and the `key` binding of that first child
exists with non-empty code; in particular the report is false for a node
without children and false when the key binding of the first child is absent or
has empty code. -/
theorem claim6_key_detection (node : MitosisNode) :
    hasFirstChildKeyAttribute node = true ↔
      ∃ c rest, node.children = c :: rest ∧
        ∃ b, lookupBinding c.bindings "key" = some b ∧ b.code ≠ "" := by
  obtain ⟨name, bs, children⟩ := node
  cases children with
  | nil =>
    rw [hasFirstChildKeyAttribute_nil]
    constructor
    · intro h
      exact absurd h (by simp)
    · rintro ⟨c, rest, hcr, _⟩
      rw [show (MitosisNode.mk name bs []).children = [] from rfl] at hcr
      cases hcr
  | cons c rest =>
    have hch : (MitosisNode.mk name bs (c :: rest)).children = c :: rest := rfl
    rw [hasFirstChildKeyAttribute_cons]
    cases hlb : lookupBinding c.bindings "key" with
    | none =>
      simp only [hlb]
      constructor
      · intro h
        exact absurd h (by simp)
      · rintro ⟨c', rest', hcr, b, hb, hcode⟩
        rw [hch] at hcr
        obtain ⟨rfl, rfl⟩ := List.cons.inj hcr
        rw [hlb] at hb
        cases hb
    | some b =>
      simp only [hlb]
      constructor
      · intro h
        refine ⟨c, rest, hch, b, hlb, ?_⟩
        simpa using h
      · rintro ⟨c', rest', hcr, b', hb', hcode⟩
        rw [hch] at hcr
        obtain ⟨rfl, rfl⟩ := List.cons.inj hcr
        rw [hlb] at hb'
        injection hb' with hb'
        subst hb'
        simpa using hcode

/-! ### Claim theorems: setter rewrite engine -/

mutual
theorem transformStateSetters_assignFree (stateKeys : List String)
    (transformer : String → JSExpr → JSExpr) :
    ∀ e : JSExpr, assignFree e = true → transformStateSetters stateKeys transformer e = e
  | .ident _, _ => rfl
  | .lit _, _ => rfl
  | .binop op l r, h => by
      rw [assignFree] at h
      rcases Bool.and_eq_true_iff.mp h with ⟨hl, hr⟩
      rw [transformStateSetters,
        transformStateSetters_assignFree stateKeys transformer l hl,
        transformStateSetters_assignFree stateKeys transformer r hr]
  | .assign t r, h => by
      rw [assignFree] at h
      exact absurd h (by simp)
  | .call f args, h => by
      rw [assignFree] at h
      rw [transformStateSetters, transformStateSettersList_assignFree stateKeys transformer args h]
theorem transformStateSettersList_assignFree (stateKeys : List String)
    (transformer : String → JSExpr → JSExpr) :
    ∀ l : JSExprList, assignFreeList l = true →
      transformStateSettersList stateKeys transformer l = l
  | .nil, _ => rfl
  | .cons e rest, h => by
      rw [assignFreeList] at h
      rcases Bool.and_eq_true_iff.mp h with ⟨he, hrest⟩
      rw [transformStateSettersList,
        transformStateSetters_assignFree stateKeys transformer e he,
        transformStateSettersList_assignFree stateKeys transformer rest hrest]
end

/-- C4: under the `useState` (independent-pairs) flavor, an assignment whose
left-hand side is a state field becomes a call of the setter of that field with
the right-hand side passed verbatim (unchanged) as the sole argument, the
setter name being the fixed prefix `set` followed by the capitalized field
name: `count = count + 1` becomes `setCount(count + 1)`. -/
theorem claim4_setter_rewrite (stateKeys : List String) (options : ToReactOptions)
    (field : String) (rhs : JSExpr)
    (hflavor : options.stateType = StateType.useState)
    (hfield : stateKeys.contains field = true)
    (hfree : assignFree rhs = true) :
    updateStateSettersInCode (JSExpr.assign field rhs) stateKeys options
      = JSExpr.call (getSetStateFnName field) (JSExprList.cons rhs JSExprList.nil) ∧
    getSetStateFnName field = "set" ++ capitalize field := by
  constructor
  · rw [updateStateSettersInCode, if_neg (by simp [hflavor])]
    rw [transformStateSetters, if_pos hfield,
      transformStateSetters_assignFree stateKeys _ rhs hfree]
  · rfl

/-- C4 witness: the rewrite theorem evaluated on `count = count + 1` with
state field `count`; the printed forms are exactly the example of the spec. -/
theorem claim4_setter_rewrite_witness :
    updateStateSettersInCode exampleAssign ["count"] optsUseState
      = JSExpr.call "setCount"
          (JSExprList.cons (JSExpr.binop "+" (JSExpr.ident "count") (JSExpr.lit "1"))
            JSExprList.nil) ∧
    printJS exampleAssign = "count = count + 1" ∧
    printJS (JSExpr.call "setCount"
      (JSExprList.cons (JSExpr.binop "+" (JSExpr.ident "count") (JSExpr.lit "1"))
        JSExprList.nil)) = "setCount(count + 1)" := by
  refine ⟨?_, by decide, by decide⟩
  have h := (claim4_setter_rewrite ["count"] optsUseState "count"
    (JSExpr.binop "+" (JSExpr.ident "count") (JSExpr.lit "1")) rfl (by decide) (by decide)).1
  have hname : getSetStateFnName "count" = "setCount" := by decide
  rw [hname] at h
  exact h

/-- C5: for every materialization flavor other than `useState`
(independent-pairs) the setter rewrite engine is the identity: every code
fragment is returned unchanged, and the component-level traversal performs no
mutation at all. -/
theorem claim5_passthrough :
    (∀ (value : JSExpr) (stateKeys : List String) (options : ToReactOptions),
        options.stateType ≠ StateType.useState →
        updateStateSettersInCode value stateKeys options = value) ∧
    (∀ (json : ReactComponent) (options : ToReactOptions),
        options.stateType ≠ StateType.useState →
        updateStateSetters json options = json) := by
  constructor
  · intro value stateKeys options h
    rw [updateStateSettersInCode, if_pos h]
  · intro json options h
    rw [updateStateSetters, if_pos h]

/-- C5 witness: the pass-through theorem evaluated at the `mobx` flavor on
the fragment `count = count + 1` and on a whole component. -/
theorem claim5_passthrough_witness :
    updateStateSettersInCode exampleAssign ["count"] optsMobx = exampleAssign ∧
    updateStateSetters exampleReact optsMobx = exampleReact :=
  ⟨claim5_passthrough.1 exampleAssign ["count"] optsMobx (by decide),
   claim5_passthrough.2 exampleReact optsMobx (by decide)⟩

/-! ### Claim theorem: useState pair materialization -/

/-- C8: under the `useState` (independent-pairs) flavor, every `value`-kind
(IR kind `property`) state entry materializes as its own paired value/setter
declaration `const [key, setKey] = useState(() => (initializer))`, with the
mapped initializer wrapped in a zero-argument function, and the setter half
named `set` plus the capitalized key. -/
theorem claim8_useState_pair (options : ToReactOptions) (key : String) (sv : StateValue)
    (hflavor : options.stateType = StateType.useState)
    (htype : sv.type = StateValueType.property)
    (hts : options.typescript = false) :
    processStateValue options (key, some sv)
      = "const [" ++ key ++ ", " ++ getSetStateFnName key ++ "] = useState"
          ++ "(() => (" ++ valueMapper options sv.code ++ "))" ∧
    getSetStateFnName key = "set" ++ capitalize key := by
  constructor
  · obtain ⟨code, ty, tp⟩ := sv
    have hty : ty = StateValueType.property := htype
    subst hty
    simp [processStateValue, hts, String.append_empty]
  · rfl

/-- C8 witness: the pair theorem evaluated on entry `count` with initializer
`0` under the `useState` flavor. -/
theorem claim8_useState_pair_witness :
    processStateValue optsUseState
        ("count", some (StateValue.mk "0" StateValueType.property none))
      = "const [count, setCount] = useState(() => (0))" := by
  have h := (claim8_useState_pair optsUseState "count"
    (StateValue.mk "0" StateValueType.property none) rfl rfl rfl).1
  rw [h]
  decide

/-! ### Properties of the receiver-stripping scanner -/

theorem length_dropWhile_le (p : Char → Bool) :
    ∀ l : List Char, (l.dropWhile p).length ≤ l.length := by
  intro l
  induction l with
  | nil => simp
  | cons a t ih =>
    by_cases h : p a = true
    · rw [List.dropWhile_cons, if_pos h]
      simp only [List.length_cons]
      omega
    · rw [List.dropWhile_cons, if_neg h]

theorem dropWhile_lt_of_takeWhile_ne_nil (p : Char → Bool) (l : List Char)
    (h : l.takeWhile p ≠ []) : (l.dropWhile p).length < l.length := by
  cases l with
  | nil => exact absurd rfl h
  | cons a t =>
    by_cases hp : p a = true
    · rw [List.dropWhile_cons, if_pos hp, List.length_cons]
      have := length_dropWhile_le p t
      omega
    · exact absurd (by rw [List.takeWhile_cons, if_neg hp]) h

theorem takeWhile_nil_dropWhile (p : Char → Bool) (l : List Char)
    (h : l.takeWhile p = []) : l.dropWhile p = l := by
  cases l with
  | nil => rfl
  | cons a t =>
    by_cases hp : p a = true
    · rw [List.takeWhile_cons, if_pos hp] at h
      cases h
    · rw [List.dropWhile_cons, if_neg hp]

theorem takeWhile_append_ident (id rest : List Char) (hall : id.all isIdentChar = true)
    (hrest : rest.takeWhile isIdentChar = []) :
    (id ++ rest).takeWhile isIdentChar = id ∧ (id ++ rest).dropWhile isIdentChar = rest := by
  induction id with
  | nil =>
    constructor
    · simpa using hrest
    · simpa using takeWhile_nil_dropWhile isIdentChar rest hrest
  | cons a id ih =>
    have hall' := hall
    rw [List.all_cons] at hall'
    rcases Bool.and_eq_true_iff.mp hall' with ⟨ha, hall2⟩
    rcases ih hall2 with ⟨h1, h2⟩
    constructor
    · rw [List.cons_append, List.takeWhile_cons, if_pos ha, h1]
    · rw [List.cons_append, List.dropWhile_cons, if_pos ha, h2]

theorem dropThisDot_some : ∀ (l rest : List Char),
    dropThisDot l = some rest → l = thisDotChars ++ rest := by
  intro l rest h
  cases l with
  | nil => simp [dropThisDot] at h
  | cons c1 l1 =>
    cases l1 with
    | nil => simp [dropThisDot] at h
    | cons c2 l2 =>
      cases l2 with
      | nil => simp [dropThisDot] at h
      | cons c3 l3 =>
        cases l3 with
        | nil => simp [dropThisDot] at h
        | cons c4 l4 =>
          cases l4 with
          | nil => simp [dropThisDot] at h
          | cons c5 l5 =>
            rw [dropThisDot] at h
            by_cases hc : [c1, c2, c3, c4, c5] = thisDotChars
            · rw [if_pos hc] at h
              injection h with h
              subst h
              rw [← hc]
              rfl
            · rw [if_neg hc] at h
              cases h

theorem stripThisAux_nil : ∀ f, stripThisAux f [] = [] := by
  intro f
  cases f <;> rfl

theorem stripThisAux_congr : ∀ (f g : Nat) (l : List Char),
    l.length ≤ f → l.length ≤ g → stripThisAux f l = stripThisAux g l := by
  intro f
  induction f with
  | zero =>
    intro g l hf hg
    have hl : l = [] := List.length_eq_zero.mp (Nat.le_zero.mp hf)
    subst hl
    rw [stripThisAux_nil, stripThisAux_nil]
  | succ n ih =>
    intro g l hf hg
    cases l with
    | nil => rw [stripThisAux_nil, stripThisAux_nil]
    | cons c cs =>
      cases g with
      | zero => simp at hg
      | succ m =>
        have hcs_n : cs.length ≤ n := by
          simp only [List.length_cons] at hf
          omega
        have hcs_m : cs.length ≤ m := by
          simp only [List.length_cons] at hg
          omega
        simp only [stripThisAux]
        cases hd : dropThisDot (c :: cs) with
        | none => rw [ih m cs hcs_n hcs_m]
        | some rest =>
          dsimp only
          have hcc : (c :: cs).length = rest.length + 5 := by
            rw [dropThisDot_some _ _ hd]
            simp [thisDotChars]
          by_cases hemp : (rest.takeWhile isIdentChar).isEmpty = true
          · rw [if_pos hemp, if_pos hemp, ih m cs hcs_n hcs_m]
          · have hlt : (rest.dropWhile isIdentChar).length < rest.length := by
              apply dropWhile_lt_of_takeWhile_ne_nil
              intro hnil
              exact hemp (by rw [hnil]; rfl)
            have hlen : cs.length + 1 = rest.length + 5 := by
              simpa [List.length_cons] using hcc
            have hb1 : (rest.dropWhile isIdentChar).length ≤ n := by omega
            have hb2 : (rest.dropWhile isIdentChar).length ≤ m := by omega
            rw [if_neg hemp, if_neg hemp, ih m (rest.dropWhile isIdentChar) hb1 hb2]

theorem stripThisCore_strip (id rest : List Char) (hid : id ≠ [])
    (hall : id.all isIdentChar = true)
    (hrest : rest.takeWhile isIdentChar = []) :
    stripThisCore (thisDotChars ++ id ++ rest) = id ++ stripThisCore rest := by
  rcases takeWhile_append_ident id rest hall hrest with ⟨htw, hdw⟩
  have hlist : thisDotChars ++ id ++ rest = 't' :: 'h' :: 'i' :: 's' :: '.' :: (id ++ rest) := by
    simp [thisDotChars]
  rw [stripThisCore, hlist]
  have hdd : dropThisDot ('t' :: 'h' :: 'i' :: 's' :: '.' :: (id ++ rest)) = some (id ++ rest) := by
    rw [dropThisDot]
    simp [thisDotChars]
  simp only [List.length_cons]
  simp only [stripThisAux]
  rw [hdd]
  dsimp only
  rw [htw, hdw]
  have hie : id.isEmpty = false := by
    cases id with
    | nil => exact absurd rfl hid
    | cons a t => rfl
  rw [if_neg (by simp [hie])]
  congr 1
  rw [stripThisCore]
  apply stripThisAux_congr
  · have hla : (id ++ rest).length = id.length + rest.length := List.length_append id rest
    omega
  · exact Nat.le_refl _

/-! ### Claim theorem: receiver stripping -/

/-- C9: under the `useState` (independent-pairs) flavor every
receiver-prefixed reference `this.<identifier>` in a code fragment is
stripped to the bare identifier — each occurrence of `this.` followed by a
maximal non-empty identifier-character run is replaced by that run alone,
stripping continuing in the remainder — while under every other flavor the
stripping step returns the fragment unchanged. -/
theorem claim9_strip_this :
    (∀ (str : String) (options : ToReactOptions),
        options.stateType ≠ StateType.useState → stripThisRefs str options = str) ∧
    (∀ (options : ToReactOptions) (id rest : List Char),
        options.stateType = StateType.useState →
        id ≠ [] → id.all isIdentChar = true →
        rest.takeWhile isIdentChar = [] →
        stripThisRefs (String.mk (thisDotChars ++ id ++ rest)) options
          = String.mk (id ++ stripThisCore rest)) := by
  constructor
  · intro str options h
    rw [stripThisRefs, if_pos h]
  · intro options id rest hflavor hid hall hrest
    have hthis : stripThisRefs (String.mk (thisDotChars ++ id ++ rest)) options
        = String.mk (stripThisCore (thisDotChars ++ id ++ rest)) := by
      rw [stripThisRefs, if_neg (by simp [hflavor])]
      rfl
    rw [hthis, stripThisCore_strip id rest hid hall hrest]

/-- C9 witness: the stripping theorem evaluated on `this.count + 1`, plus
concrete evaluations `this.a + this.b ↦ a + b` under `useState` and the
identity behavior under `mobx`. -/
theorem claim9_strip_this_witness :
    stripThisRefs
        (String.mk (thisDotChars ++ ['c', 'o', 'u', 'n', 't'] ++ [' ', '+', ' ', '1']))
        optsUseState
      = String.mk (['c', 'o', 'u', 'n', 't'] ++ stripThisCore [' ', '+', ' ', '1']) ∧
    stripThisRefs "this.count + 1" optsUseState = "count + 1" ∧
    stripThisRefs "this.a + this.b" optsUseState = "a + b" ∧
    stripThisRefs "this.x = 1;" optsMobx = "this.x = 1;" := by
  refine ⟨?_, by decide, by decide, ?_⟩
  · exact claim9_strip_this.2 optsUseState ['c', 'o', 'u', 'n', 't'] [' ', '+', ' ', '1']
      rfl (by decide) (by decide) (by decide)
  · exact claim9_strip_this.1 "this.x = 1;" optsMobx (by decide)
